import Mathlib

/-!
Verification of the resource-discovery pipeline of `canvas.py`.

The pipeline's pure logic (string matching, cache expiry, per-module resource
building, aggregation and sorting) is embedded as executable Lean definitions.
External collaborators (Canvas HTTP fetchers, Gemini LLM calls, the filesystem)
are modelled as oracles collected in an `Env` record: each oracle returns
`Option` results, `none` standing for the `None` that the corresponding Python
helper returns on any failure (all of those helpers catch their own
exceptions).  Time is modelled by `ℚ` (Python `time.time()` floats), and
relevance scores by `ℚ` (Python floats).  Machine strings are Lean `String`s;
`str.lower()` is mapped charwise (`Char.toLower`), `str.split()` and the `in`
substring test are re-implemented structurally so that they reduce in the
kernel.
-/

namespace Canvas

/-- Charwise lowering, modelling Python `str.lower()` (ASCII-faithful). -/
def lowerStr (s : String) : String := ⟨s.data.map Char.toLower⟩

/-- Worker for `splitWS`: accumulates the current word (reversed) while
scanning the character list, splitting at whitespace and dropping empty
pieces, exactly like Python `str.split()` with no arguments. -/
def splitWordsAux : List Char → List Char → List (List Char)
  | cur, [] => if cur = [] then [] else [cur.reverse]
  | cur, c :: rest =>
    if c.isWhitespace then
      (if cur = [] then splitWordsAux [] rest else cur.reverse :: splitWordsAux [] rest)
    else splitWordsAux (c :: cur) rest

/-- Python `s.split()`: split on whitespace runs, no empty pieces. -/
def splitWS (s : String) : List String := (splitWordsAux [] s.data).map (fun l => ⟨l⟩)

/-- `startsWithL n h` is true when `n` is an initial segment of `h`. -/
def startsWithL : List Char → List Char → Bool
  | [], _ => true
  | _ :: _, [] => false
  | a :: as, b :: bs => if a = b then startsWithL as bs else false

/-- Contiguous-substring test on character lists; `containsSub n h` models
Python `n in h` for strings (in particular the empty needle matches). -/
def containsSub : List Char → List Char → Bool
  | n, [] => n.isEmpty
  | n, c :: t => startsWithL n (c :: t) || containsSub n t

/-- Python `needle in hay` on strings. -/
def strIn (needle hay : String) : Bool := containsSub needle.data hay.data

/-! ## TTL cache (`cache_get` / `cache_set`, canvas.py lines 66-99)

Two addressing modes exist in the source: singleton domains (such as
`"courses"`, where the entry is the domain itself) and keyed domains.  Both
are embedded; the timestamp arithmetic `current_time - stored < CACHE_TTL`
is copied verbatim. -/

/-- A keyed cache domain: per-key stored value and per-key timestamp
(`cache[d]` and `cache_timestamps[d]` for a multi-item domain `d`). -/
structure KeyedDomain (K V : Type) where
  entries : K → Option V
  stamps : K → Option ℚ

/-- A singleton cache domain (`cache[d]` holding `None` or a value, plus one
timestamp). -/
structure SingleDomain (V : Type) where
  value : Option V
  stamp : ℚ

/-- `cache_get` for a keyed domain: present and fresh
(`now - stored < ttl`), else `None`. -/
def cache_get_keyed {K V : Type} (d : KeyedDomain K V) (ttl now : ℚ) (k : K) : Option V :=
  match d.entries k, d.stamps k with
  | some v, some t => if now - t < ttl then some v else none
  | _, _ => none

/-- `cache_set` for a keyed domain: store the value and the current time. -/
def cache_set_keyed {K V : Type} [DecidableEq K] (d : KeyedDomain K V) (now : ℚ) (k : K)
    (v : V) : KeyedDomain K V :=
  ⟨fun x => if x = k then some v else d.entries x,
   fun x => if x = k then some now else d.stamps x⟩

/-- `cache_get` for a singleton domain. -/
def cache_get_single {V : Type} (d : SingleDomain V) (ttl now : ℚ) : Option V :=
  match d.value with
  | some v => if now - d.stamp < ttl then some v else none
  | none => none

/-- `cache_set` for a singleton domain. -/
def cache_set_single {V : Type} (now : ℚ) (v : V) : SingleDomain V :=
  ⟨some v, now⟩

/-! ## Fuzzy fallback matcher (stage 1 course-name correction,
canvas.py lines 506-521) -/

/-- Count of position-aligned equal characters of two zipped character
lists (`sum(1 for a, b in zip(x, y) if a == b)`). -/
def alignedCount : List Char → List Char → Nat
  | a :: as, b :: bs => (if a = b then 1 else 0) + alignedCount as bs
  | _, _ => 0

/-- The classifier fallback similarity: aligned equal characters of the
lowered strings over `max(len(name), len(target))` (original lengths, as in
the source).  The denominator is zero only when both strings are empty, a
state unreachable at the call site (the loop runs only when the target is
not a key of the course mapping, so no candidate equals the target). -/
def fuzzyScore (name target : String) : ℚ :=
  (alignedCount (lowerStr name).data (lowerStr target).data : ℚ) /
    (max name.length target.length : ℚ)

/-- One iteration of the best-match loop: strict improvement
(`if score > best_score`) replaces the running best. -/
def fuzzyStep (target : String) (acc : Option String × ℚ) (name : String) : Option String × ℚ :=
  if acc.2 < fuzzyScore name target then (some name, fuzzyScore name target) else acc

/-- The whole best-match loop, from `best_match = None`, `best_score = 0`. -/
def fuzzyBest (names : List String) (target : String) : Option String × ℚ :=
  names.foldl (fuzzyStep target) (none, 0)

/-- Accept the best candidate only when its score strictly exceeds `0.5`
(`if best_score > 0.5`), else the stage gives up (`return None`). -/
def fuzzyCorrect (names : List String) (target : String) : Option String :=
  if 1 / 2 < (fuzzyBest names target).2 then (fuzzyBest names target).1 else none

/-! ## Orchestrator course-resolution fallback chain
(`helper_resources`, canvas.py lines 857-907) -/

/-- `set(w.lower() for w in s.split() if len(w) > 3)`: words longer than 3
characters, lowered, as a duplicate-free list. -/
def wordSet3 (s : String) : List String :=
  (((splitWS s).filter (fun w => 3 < w.length)).map lowerStr).dedup

/-- The word-overlap score: `|query_words ∩ name_words| / min(|query_words|,
|name_words|)`.  Only consulted when both word sets are non-empty. -/
def overlapScore (q n : String) : ℚ :=
  (((wordSet3 q).filter (fun w => w ∈ wordSet3 n)).length : ℚ) /
    (min (wordSet3 q).length (wordSet3 n).length : ℚ)

/-- Case-insensitive substring containment in either direction between the
classifier name and a course name. -/
def substrRel (cn name : String) : Bool :=
  strIn (lowerStr cn) (lowerStr name) || strIn (lowerStr name) (lowerStr cn)

/-- One iteration of the partial-match loop over course names.  When both
word sets are non-empty the word-overlap branch runs (strict improvement of
the best score); otherwise (`elif`) a substring hit is recorded only while
no best match exists; otherwise nothing changes. -/
def chainStep (q cn : String) (acc : Option String × ℚ) (name : String) : Option String × ℚ :=
  if wordSet3 q ≠ [] ∧ wordSet3 name ≠ [] then
    (if acc.2 < overlapScore q name then (some name, overlapScore q name) else acc)
  else if substrRel cn name then (if acc.1 = none then (some name, acc.2) else acc)
  else acc

/-- The keyword scan: first course whose lowered name contains some lowered
query word longer than 4 characters. -/
def keywordScan (q : String) (names : List String) : Option String :=
  let kws := ((splitWS q).filter (fun w => 4 < w.length)).map lowerStr
  names.find? (fun n => kws.any (fun k => strIn k (lowerStr n)))

/-- Course resolution: an exact key wins outright; otherwise the
word-overlap / substring loop runs and a truthy best match is used
regardless of whether the `0.2` threshold was reached (the source tests
`if best_match and best_match_score >= 0.2` and then `elif best_match`,
and assigns `best_match` in both branches, so only Python truthiness
matters: a best match that is `None` or the empty string fails both
tests); with no truthy best match the keyword scan runs, and `none` is
the "No relevant course found" error. -/
def resolveCourse (q cn : String) (names : List String) : Option String :=
  if cn ∈ names then some cn
  else
    match (names.foldl (chainStep q cn) (none, 0)).1 with
    | some bm => if bm = "" then keywordScan q names else some bm
    | none => keywordScan q names

/-! ## Module-name validation inside stage 2
(`analyze_query_with_gemini`, canvas.py lines 580-602) -/

/-- Case-insensitive substring containment in either direction between a
returned module name and a candidate name. -/
def moduleNameRel (name valid : String) : Bool :=
  strIn (lowerStr name) (lowerStr valid) || strIn (lowerStr valid) (lowerStr name)

/-- Validation of one returned module name: exact membership first, then
correction to the first substring-related candidate, else dropped. -/
def correctModuleName (cands : List String) (n : String) : List String :=
  if n ∈ cands then [n]
  else
    match cands.find? (fun v => moduleNameRel n v) with
    | some v => [v]
    | none => []

/-- Stage-2 validation of the whole returned name list; `none` models the
`return None` taken when no valid name remains. -/
def validateModuleNames (cands returned : List String) : Option (List String) :=
  let vr := returned.flatMap (correctModuleName cands)
  if vr = [] then none else some vr

/-! ## Pipeline data model -/

/-- A Canvas module (`{id, name}`). -/
structure PModule where
  id : Nat
  name : String
deriving DecidableEq

/-- A module item as consumed by the pipeline; every field is read through
`dict.get`, so each one is optional (`none` for a missing key). -/
structure Item where
  title : Option String
  itemType : Option String
  html_url : Option String
  content_id : Option Nat
deriving DecidableEq

/-- A pipeline resource as assembled in `process_module`. -/
structure Resource where
  title : String
  rtype : String
  url : String
  course : String
  moduleName : String
  relevance_score : ℚ
deriving DecidableEq

/-- Stage-3 ranker output (`resource_indices`, parallel `relevance_scores`).
Indices are integers straight out of the LLM JSON, hence `Int`. -/
structure RankAnalysis where
  resource_indices : List Int
  relevance_scores : List ℚ
deriving DecidableEq

/-- Stage-1 classifier output (only `course_name` feeds control flow). -/
structure CourseAnalysis where
  course_name : String
deriving DecidableEq

/-- Stage-2 selector output (only `module_names` feeds control flow);
modelled post-validation, as returned by `analyze_query_with_gemini`. -/
structure ModuleAnalysis where
  module_names : List String
deriving DecidableEq

/-- Tags for the collaborator calls the pipeline can make; used to show
which external services a run consulted. -/
inductive Call
  | pathExistsCall
  | visionCall
  | coursesCall
  | courseLLMCall
  | modulesCall
  | moduleLLMCall
  | itemsCall
  | rankLLMCall
  | fileUrlCall
deriving DecidableEq

/-- Terminal outcomes of the pipeline: a structured error, a sorted resource
list, or an uncaught exception (`crash`) that `find_resources` converts into
its "Internal server error" object. -/
inductive ErrKind
  | inputError
  | imagePathError
  | internalError
  | noCourses
  | courseAnalysisFailed
  | noRelevantCourse
  | noModules
  | moduleAnalysisFailed
  | noRelevantModules
  | noRelevantResources
deriving DecidableEq

/-- Pipeline outcome. -/
inductive POut
  | crash
  | fail (e : ErrKind)
  | ok (rs : List Resource)
deriving DecidableEq

/-- The external collaborators (HTTP fetchers, LLM stages, filesystem),
each returning `none` where the Python helper returns `None` on failure.
`rank` models `analyze_resource_relevance`, which catches every exception
internally, so a ranking call that throws is exactly a `none` here. -/
structure Env where
  pathExists : String → Bool
  analyzeImage : String → Option String
  getCourses : Option (List (String × Nat))
  courseAnalysis : String → Option CourseAnalysis
  getModules : Nat → Option (List PModule)
  moduleAnalysis : String → Nat → Option ModuleAnalysis
  getItems : Nat → Nat → Option (List Item)
  rank : String → List Item → String → String → Option RankAnalysis
  fileUrl : Nat → Nat → Option String

/-! ## Per-module processing (`process_module`, canvas.py lines 757-816) -/

/-- Resource construction from an item
(`item.get("title", "Untitled Resource")` and friends). -/
def mkResource (item : Item) (score : ℚ) (cn mn : String) : Resource :=
  { title := item.title.getD "Untitled Resource"
    rtype := item.itemType.getD "Unknown"
    url := item.html_url.getD ""
    course := cn
    moduleName := mn
    relevance_score := score }

/-- Python list indexing `items[idx]` for an `int` index: non-negative
indices address from the front, indices in `[-len, 0)` address from the
back, anything below `-len` raises `IndexError` (`none` here). -/
def pyIndex (l : List Item) (i : Int) : Option Item :=
  if 0 ≤ i then l.get? i.toNat
  else if -(l.length : Int) ≤ i then l.get? ((l.length : Int) + i).toNat
  else none

/-- The resource-building loop of `process_module`: for each position
`pos` and index `idx` of `resource_indices`, indices with
`idx < len(items)` build one resource (score `relevance_scores[pos]` when
that position exists, else `0.5`), larger indices are skipped, and a
negative index below `-len(items)` raises `IndexError` (`Except.error`).
The originating item is kept beside each resource for the later file-URL
resolution (the source stores it under the `"item"` key and pops it). -/
def buildLoop (items : List Item) (scores : List ℚ) (cn mn : String) :
    List Int → Nat → Except Unit (List (Resource × Item))
  | [], _ => .ok []
  | idx :: rest, pos =>
    if idx < (items.length : Int) then
      match pyIndex items idx with
      | some item =>
        match buildLoop items scores cn mn rest (pos + 1) with
        | .ok rs => .ok ((mkResource item ((scores.get? pos).getD (1 / 2)) cn mn, item) :: rs)
        | .error e => .error e
      | none => .error ()
    else buildLoop items scores cn mn rest (pos + 1)

/-- File-URL overwriting: only for items of type `File` carrying a
`content_id`, and only when the fetched URL is truthy (non-empty). -/
def resolveResourceUrl (env : Env) (cid : Nat) (p : Resource × Item) : Resource :=
  if p.2.itemType = some "File" then
    match p.2.content_id with
    | some fid =>
      match env.fileUrl cid fid with
      | some u => if u = "" then p.1 else { p.1 with url := u }
      | none => p.1
    | none => p.1
  else p.1

/-- `process_module`, returning the module's resources (or `Except.error`
for an uncaught exception) and the collaborator calls it made.  A missing
or empty item list, a failed ranking call, or empty `resource_indices`
each yield an empty contribution, not an error. -/
def process_module (env : Env) (q : String) (cid : Nat) (cn : String) (m : PModule) :
    Except Unit (List Resource) × List Call :=
  match env.getItems cid m.id with
  | none => (.ok [], [.itemsCall])
  | some items =>
    if items = [] then (.ok [], [.itemsCall])
    else
      match env.rank q items cn m.name with
      | none => (.ok [], [.itemsCall, .rankLLMCall])
      | some ra =>
        if ra.resource_indices = [] then (.ok [], [.itemsCall, .rankLLMCall])
        else
          match buildLoop items ra.relevance_scores cn m.name ra.resource_indices 0 with
          | .error e => (.error e, [.itemsCall, .rankLLMCall])
          | .ok rs =>
            (.ok (rs.map (resolveResourceUrl env cid)),
             [.itemsCall, .rankLLMCall] ++
               rs.filterMap (fun p =>
                 if p.2.itemType = some "File" ∧ p.2.content_id.isSome then
                   some Call.fileUrlCall
                 else none))

/-! ## Fan-out, aggregation and sort (canvas.py lines 949-960) -/

/-- `asyncio.gather` over the per-module results: every task runs, and any
task that raised makes the whole gather raise; otherwise the per-module
lists are concatenated in module order. -/
def gatherConcat : List (Except Unit (List Resource)) → Except Unit (List Resource)
  | [] => .ok []
  | .error e :: _ => .error e
  | .ok l :: rest =>
    match gatherConcat rest with
    | .error e => .error e
    | .ok ls => .ok (l ++ ls)

/-- Descending order on relevance scores, the key order of
`sort(key=lambda x: x.get("relevance_score", 0), reverse=True)` (every
built resource carries the key, so the `0` default never fires). -/
def scoreGE (a b : Resource) : Prop := b.relevance_score ≤ a.relevance_score

instance : DecidableRel scoreGE :=
  fun a b => inferInstanceAs (Decidable (b.relevance_score ≤ a.relevance_score))

instance : IsTotal Resource scoreGE := ⟨fun a b => le_total b.relevance_score a.relevance_score⟩

instance : IsTrans Resource scoreGE :=
  ⟨fun _ _ _ h1 h2 => le_trans h2 h1⟩

/-- The final sort.  Python `list.sort` is stable; a stable sort by a fixed
key order is extensionally unique, so insertion sort is an exact model. -/
def sortResources (l : List Resource) : List Resource := List.insertionSort scoreGE l

/-- Outcome of step 5 of `helper_resources`: process all selected modules,
gather, concatenate, sort descending; an empty aggregate is the
"No relevant resources found" error, an uncaught per-module exception
crashes the coroutine. -/
def fanOutResult (env : Env) (q : String) (cid : Nat) (cn : String) (mods : List PModule) :
    POut :=
  match gatherConcat (mods.map (fun m => (process_module env q cid cn m).1)) with
  | .error _ => .crash
  | .ok all => if all = [] then .fail .noRelevantResources else .ok (sortResources all)

/-- Step 5 outcome together with the collaborator calls of the fan-out. -/
def fanOut (env : Env) (q : String) (cid : Nat) (cn : String) (mods : List PModule) :
    POut × List Call :=
  (fanOutResult env q cid cn mods,
   (mods.map (fun m => (process_module env q cid cn m).2)).flatten)

/-! ## Orchestrator (`helper_resources` and `find_resources`,
canvas.py lines 719-981) -/

/-- The image preprocessing step: with a truthy existing image path, a
vision call produces a caption which is combined as `"query - caption"`
when both are truthy; a falsy caption degrades to the text query. -/
def helperQuery (env : Env) (q : String) (ip : Option String) : String × List Call :=
  match ip with
  | none => (q, [])
  | some p =>
    if p = "" then (q, [])
    else if env.pathExists p then
      match env.analyzeImage p with
      | some iq =>
        (if iq = "" then q else if q ≠ "" then q ++ " - " ++ iq else iq,
         [.pathExistsCall, .visionCall])
      | none => (q, [.pathExistsCall, .visionCall])
    else (q, [.pathExistsCall])

/-- Dictionary lookup `courses[name]` (keys are unique in a `dict`). -/
def lookupCourse : List (String × Nat) → String → Option Nat
  | [], _ => none
  | (n, i) :: rest, cn => if n = cn then some i else lookupCourse rest cn

/-- The additive module-selection keyword test: some lowered query word
longer than 3 characters occurs in the lowered module name. -/
def moduleKeywordHit (q name : String) : Bool :=
  ((splitWS (lowerStr q)).filter (fun w => 3 < w.length)).any
    (fun k => strIn k (lowerStr name))

/-- `helper_resources`: image step, course fetch, course classification with
fallback, module fetch, module selection (validated names plus keyword
hits), parallel per-module ranking, aggregation and sort.  The second
component lists the collaborator calls of a canonical sequentialisation of
the run. -/
def helperResources (env : Env) (q0 : String) (ip : Option String) : POut × List Call :=
  let q := (helperQuery env q0 ip).1
  let tr0 := (helperQuery env q0 ip).2
  match env.getCourses with
  | none => (.fail .noCourses, tr0 ++ [.coursesCall])
  | some courses =>
    if courses = [] then (.fail .noCourses, tr0 ++ [.coursesCall])
    else
      match env.courseAnalysis q with
      | none => (.fail .courseAnalysisFailed, tr0 ++ [.coursesCall, .courseLLMCall])
      | some ca =>
        match resolveCourse q ca.course_name (courses.map Prod.fst) with
        | none => (.fail .noRelevantCourse, tr0 ++ [.coursesCall, .courseLLMCall])
        | some cn =>
          let cid := (lookupCourse courses cn).getD 0
          match env.getModules cid with
          | none =>
            (.fail .noModules, tr0 ++ [.coursesCall, .courseLLMCall, .modulesCall])
          | some modules =>
            if modules = [] then
              (.fail .noModules, tr0 ++ [.coursesCall, .courseLLMCall, .modulesCall])
            else
              match env.moduleAnalysis q cid with
              | none =>
                (.fail .moduleAnalysisFailed,
                 tr0 ++ [.coursesCall, .courseLLMCall, .modulesCall, .moduleLLMCall])
              | some ma =>
                let selected := modules.filter
                  (fun m => decide (m.name ∈ ma.module_names) || moduleKeywordHit q m.name)
                if selected = [] then
                  (.fail .noRelevantModules,
                   tr0 ++ [.coursesCall, .courseLLMCall, .modulesCall, .moduleLLMCall])
                else
                  ((fanOut env q cid cn selected).1,
                   tr0 ++ [.coursesCall, .courseLLMCall, .modulesCall, .moduleLLMCall] ++
                     (fanOut env q cid cn selected).2)

/-- Conversion of the helper outcome by the `find_resources` wrapper: an
uncaught exception becomes the "Internal server error" object, error lists
pass through as the error object, resource lists pass through unchanged. -/
def wrapOut : POut → POut
  | .crash => .fail .internalError
  | .fail e => .fail e
  | .ok rs => .ok rs

/-- The `find_resources` entry point: input validation (both arguments
falsy is an immediate error with no collaborator call; a truthy but
non-existing image path with no query is an error after only the
existence check), then `helper_resources`. -/
def findResources (env : Env) (q : String) (ip : Option String) : POut × List Call :=
  if q = "" ∧ (ip = none ∨ ip = some "") then (.fail .inputError, [])
  else
    match ip with
    | none => ((wrapOut (helperResources env q none).1), (helperResources env q none).2)
    | some p =>
      if p = "" then
        ((wrapOut (helperResources env q (some "")).1), (helperResources env q (some "")).2)
      else if env.pathExists p then
        ((wrapOut (helperResources env q (some p)).1),
         Call.pathExistsCall :: (helperResources env q (some p)).2)
      else if q = "" then (.fail .imagePathError, [.pathExistsCall])
      else
        ((wrapOut (helperResources env q (some p)).1),
         Call.pathExistsCall :: (helperResources env q (some p)).2)

/-- The resource list of an `ok` outcome (empty otherwise). -/
def resourcesOf : POut → List Resource
  | .ok rs => rs
  | _ => []

instance {ε α : Type} [DecidableEq ε] [DecidableEq α] : DecidableEq (Except ε α) := fun a b =>
  match a, b with
  | .error e1, .error e2 =>
    if h : e1 = e2 then isTrue (by rw [h]) else isFalse (by intro hc; cases hc; exact h rfl)
  | .error e1, .ok a2 => isFalse (by intro hc; cases hc)
  | .ok a1, .error e2 => isFalse (by intro hc; cases hc)
  | .ok a1, .ok a2 =>
    if h : a1 = a2 then isTrue (by rw [h]) else isFalse (by intro hc; cases hc; exact h rfl)

/-! # Theorems -/

/-! ## C6: cache TTL boundary -/

/-- C6: for any cache domain with TTL `T`, in either addressing mode, a value
stored by `cache_set` at time `t0` is returned by `cache_get` exactly for
query times `t < t0 + T` and treated as absent for `t ≥ t0 + T`; the
operations are total functions, so absence is a normal outcome and they
cannot fail. -/
theorem cache_ttl_boundary {K V : Type} [DecidableEq K] (d : KeyedDomain K V) (ttl t0 t : ℚ)
    (k : K) (v : V) (w : V) :
    cache_get_keyed (cache_set_keyed d t0 k v) ttl t k =
      (if t < t0 + ttl then some v else none) ∧
    cache_get_single (cache_set_single t0 w) ttl t =
      (if t < t0 + ttl then some w else none) := by
  have hiff : (t - t0 < ttl) = (t < t0 + ttl) := by
    apply propext
    constructor <;> intro hx <;> linarith
  constructor
  · simp [cache_get_keyed, cache_set_keyed, hiff]
  · simp [cache_get_single, cache_set_single, hiff]

/-! ## C5: the fuzzy fallback matcher -/

theorem alignedCount_self (l : List Char) : alignedCount l l = l.length := by
  induction l with
  | nil => rfl
  | cons a as ih => simp [alignedCount, ih, Nat.add_comm]

theorem alignedCount_eq_zero :
    ∀ la lb : List Char, (∀ p ∈ List.zip la lb, p.1 ≠ p.2) → alignedCount la lb = 0 := by
  intro la
  induction la with
  | nil => intro lb _; cases lb <;> rfl
  | cons a as ih =>
    intro lb h
    cases lb with
    | nil => rfl
    | cons b bs =>
      have hab : a ≠ b := h (a, b) (by simp)
      have ht : alignedCount as bs = 0 := ih bs (fun p hp => h p (by simp [hp]))
      simp [alignedCount, hab, ht]

theorem fuzzyFold_inv (target : String) :
    ∀ (l : List String) (acc : Option String × ℚ),
      (∀ x, acc.1 = some x → acc.2 = fuzzyScore x target) →
      ((∀ x, (l.foldl (fuzzyStep target) acc).1 = some x →
          (l.foldl (fuzzyStep target) acc).2 = fuzzyScore x target) ∧
        ((l.foldl (fuzzyStep target) acc).2 = acc.2 ∨
          ∃ n ∈ l, (l.foldl (fuzzyStep target) acc).2 = fuzzyScore n target)) := by
  intro l
  induction l with
  | nil => intro acc hacc; exact ⟨hacc, Or.inl rfl⟩
  | cons n t ih =>
    intro acc hacc
    simp only [List.foldl_cons]
    by_cases hlt : acc.2 < fuzzyScore n target
    · have hstep : fuzzyStep target acc n = (some n, fuzzyScore n target) := by
        simp [fuzzyStep, hlt]
      rw [hstep]
      have h1 : ∀ x, (some n, fuzzyScore n target).1 = some x →
          (some n, fuzzyScore n target).2 = fuzzyScore x target := by
        intro x hx
        simp only at hx
        cases hx
        rfl
      rcases ih (some n, fuzzyScore n target) h1 with ⟨p1, p2⟩
      refine ⟨p1, ?_⟩
      rcases p2 with h | ⟨m, hm, hv⟩
      · exact Or.inr ⟨n, List.mem_cons_self n t, h⟩
      · exact Or.inr ⟨m, List.mem_cons_of_mem n hm, hv⟩
    · have hstep : fuzzyStep target acc n = acc := by
        simp [fuzzyStep, hlt]
      rw [hstep]
      rcases ih acc hacc with ⟨p1, p2⟩
      refine ⟨p1, ?_⟩
      rcases p2 with h | ⟨m, hm, hv⟩
      · exact Or.inl h
      · exact Or.inr ⟨m, List.mem_cons_of_mem n hm, hv⟩

/-- C5: the classifier fallback matcher scores a candidate against the
target as position-aligned equal characters (case-folded) over
`max(len(A), len(B))`; identical (non-empty) strings score `1`, strings
differing at every aligned position score `0`, an accepted candidate always
has score strictly above `0.5` (never exactly `0.5`), and when no candidate
clears the threshold the stage returns absent. -/
theorem fuzzy_matcher (names : List String) (target a b : String) :
    (a ≠ "" → fuzzyScore a a = 1) ∧
    ((∀ p ∈ List.zip (lowerStr a).data (lowerStr b).data, p.1 ≠ p.2) → fuzzyScore a b = 0) ∧
    (∀ c, fuzzyCorrect names target = some c → 1 / 2 < fuzzyScore c target) ∧
    ((∀ n ∈ names, fuzzyScore n target ≤ 1 / 2) → fuzzyCorrect names target = none) := by
  refine ⟨?_, ?_, ?_, ?_⟩
  · intro ha
    have hlen : a.length ≠ 0 := by
      intro h0
      apply ha
      have hd : a.data = [] := List.length_eq_zero.mp h0
      cases a with
      | mk data => cases hd; rfl
    have hdata : (lowerStr a).data.length = a.length := by
      show (a.data.map Char.toLower).length = a.length
      rw [List.length_map]
      rfl
    rw [fuzzyScore, alignedCount_self, hdata, max_self]
    exact div_self (by exact_mod_cast hlen)
  · intro h
    rw [fuzzyScore, alignedCount_eq_zero _ _ h]
    simp
  · intro c hc
    rw [fuzzyCorrect] at hc
    by_cases hlt : 1 / 2 < (fuzzyBest names target).2
    · rw [if_pos hlt] at hc
      have hinv := (fuzzyFold_inv target names (none, 0) (by intro x hx; cases hx)).1 c hc
      rw [fuzzyBest] at hlt
      rw [hinv] at hlt
      exact hlt
    · rw [if_neg hlt] at hc
      cases hc
  · intro h
    rw [fuzzyCorrect]
    have hinv := (fuzzyFold_inv target names (none, 0) (by intro x hx; cases hx)).2
    have hle : (fuzzyBest names target).2 ≤ 1 / 2 := by
      rw [fuzzyBest]
      rcases hinv with h0 | ⟨n, hn, hv⟩
      · rw [h0]; norm_num
      · rw [hv]; exact h n hn
    rw [if_neg (not_lt.mpr hle)]

/-- Witness for C5 at concrete inputs: identical strings score `1`, and with
every candidate at or below the threshold the matcher returns absent. -/
theorem fuzzy_matcher_witness :
    fuzzyScore "ab" "ab" = 1 ∧ fuzzyCorrect ["xy"] "ab" = none := by
  constructor
  · exact (fuzzy_matcher [] "ab" "ab" "ab").1 (by decide)
  · apply (fuzzy_matcher ["xy"] "ab" "ab" "ab").2.2.2
    intro n hn
    have hn2 : n = "xy" := by
      cases hn with
      | head => rfl
      | tail _ h => cases h
    subst hn2
    have h0 : alignedCount (lowerStr "xy").data (lowerStr "ab").data = 0 := by decide
    rw [fuzzyScore, h0]
    norm_num

/-! ## C7: module-name validation in stage 2 -/

theorem correctModuleName_subset {cands : List String} {n x : String}
    (h : x ∈ correctModuleName cands n) : x ∈ cands := by
  rw [correctModuleName] at h
  by_cases hm : n ∈ cands
  · rw [if_pos hm] at h
    cases h with
    | head => exact hm
    | tail _ h2 => cases h2
  · rw [if_neg hm] at h
    cases hf : List.find? (fun v => moduleNameRel n v) cands with
    | none => rw [hf] at h; cases h
    | some v =>
      rw [hf] at h
      cases h with
      | head => exact List.mem_of_find?_eq_some hf
      | tail _ h2 => cases h2

theorem find?_append_of_none {p : String → Bool} :
    ∀ (pre : List String) (c : String) (post : List String),
      (∀ x ∈ pre, p x = false) → p c = true →
      List.find? p (pre ++ c :: post) = some c := by
  intro pre
  induction pre with
  | nil => intro c post _ hc; simp [List.find?, hc]
  | cons y ys ih =>
    intro c post hpre hc
    have hy : p y = false := hpre y (List.mem_cons_self y ys)
    simp only [List.cons_append, List.find?, hy]
    exact ih c post (fun x hx => hpre x (List.mem_cons_of_mem y hx)) hc

/-- C7: stage-2 validation checks each returned module name for exact
membership first; a non-exact name is corrected to the first candidate
related to it by case-insensitive substring containment in either
direction; names that still match nothing are dropped; every surviving
name is a real candidate, and the stage returns absent exactly when no
name survives. -/
theorem module_name_validation (cands returned : List String) :
    (∀ n, n ∈ cands → correctModuleName cands n = [n]) ∧
    (∀ n pre c post, cands = pre ++ c :: post → n ∉ cands →
      (∀ x ∈ pre, moduleNameRel n x = false) → moduleNameRel n c = true →
      correctModuleName cands n = [c]) ∧
    (∀ n, n ∉ cands → (∀ x ∈ cands, moduleNameRel n x = false) →
      correctModuleName cands n = []) ∧
    (∀ out, validateModuleNames cands returned = some out →
      out ≠ [] ∧ ∀ x ∈ out, x ∈ cands) ∧
    (validateModuleNames cands returned = none ↔
      returned.flatMap (correctModuleName cands) = []) := by
  refine ⟨?_, ?_, ?_, ?_, ?_⟩
  · intro n hn
    rw [correctModuleName, if_pos hn]
  · intro n pre c post hc hn hpre hrel
    rw [correctModuleName, if_neg hn, hc, find?_append_of_none pre c post hpre hrel]
  · intro n hn hall
    rw [correctModuleName, if_neg hn, List.find?_eq_none.mpr (by
      intro x hx
      rw [hall x hx]
      exact Bool.false_ne_true)]
  · intro out hout
    rw [validateModuleNames] at hout
    by_cases hv : returned.flatMap (correctModuleName cands) = []
    · rw [if_pos hv] at hout; cases hout
    · rw [if_neg hv] at hout
      cases hout
      refine ⟨hv, ?_⟩
      intro x hx
      rcases List.mem_flatMap.mp hx with ⟨n, _, hmem⟩
      exact correctModuleName_subset hmem
  · rw [validateModuleNames]
    by_cases hv : returned.flatMap (correctModuleName cands) = []
    · rw [if_pos hv]
      constructor
      · intro _; exact hv
      · intro _; rfl
    · rw [if_neg hv]
      constructor
      · intro h; cases h
      · intro h; exact absurd h hv

/-- Witness for C7: a non-exact returned name is corrected to the first
substring-related candidate. -/
theorem module_name_validation_witness :
    correctModuleName ["Alpha", "Beta"] "the beta unit" = ["Beta"] :=
  (module_name_validation ["Alpha", "Beta"] []).2.1 "the beta unit" ["Alpha"] "Beta" []
    rfl (by decide) (by decide) (by decide)

/-! ## C4 and C10: the resource-building loop of `process_module` -/

theorem buildLoop_nonneg_eq (items : List Item) (scores : List ℚ) (cn mn : String) :
    ∀ (idxs : List Int) (pos : Nat), (∀ i ∈ idxs, 0 ≤ i) →
      buildLoop items scores cn mn idxs pos =
        .ok ((List.enumFrom pos idxs).filterMap (fun pi =>
          (items.get? pi.2.toNat).map
            (fun it => (mkResource it ((scores.get? pi.1).getD (1 / 2)) cn mn, it)))) := by
  intro idxs
  induction idxs with
  | nil => intro pos _; rfl
  | cons i rest ih =>
    intro pos h
    have hi : 0 ≤ i := h i (List.mem_cons_self i rest)
    have hrest := ih (pos + 1) (fun x hx => h x (List.mem_cons_of_mem i hx))
    rw [buildLoop]
    by_cases hlt : i < (items.length : Int)
    · rw [if_pos hlt]
      have htn : i.toNat < items.length := by omega
      have hg : items.get? i.toNat = some (items.get ⟨i.toNat, htn⟩) := List.get?_eq_get htn
      have hp : pyIndex items i = some (items.get ⟨i.toNat, htn⟩) := by
        rw [pyIndex, if_pos hi]
        exact hg
      rw [hp, hrest]
      simp only [List.enumFrom, List.filterMap_cons]
      rw [hg]
      rfl
    · rw [if_neg hlt, hrest]
      have hg : items.get? i.toNat = none := List.get?_eq_none.mpr (by omega)
      simp only [List.enumFrom, List.filterMap_cons]
      rw [hg]
      rfl

/-- C4: `process_module` builds exactly one resource per returned
non-negative index below `len(items)`, in order, the score taken from
`relevance_scores` at the index's position when that position exists and
`0.5` otherwise; an index at or beyond `len(items)` is silently skipped
(`filterMap` drops it, no error); and empty `resource_indices` yields
`.ok []` — an empty list, not an error and not an absent value. -/
theorem process_module_build (env : Env) (q : String) (cid : Nat) (cn : String) (m : PModule)
    (items : List Item) (ra : RankAnalysis)
    (hitems : env.getItems cid m.id = some items)
    (hrank : env.rank q items cn m.name = some ra) :
    (ra.resource_indices = [] → items ≠ [] → (process_module env q cid cn m).1 = .ok []) ∧
    (items ≠ [] → ra.resource_indices ≠ [] → (∀ i ∈ ra.resource_indices, 0 ≤ i) →
      (process_module env q cid cn m).1 =
        .ok ((ra.resource_indices.enum.filterMap (fun pi =>
          (items.get? pi.2.toNat).map (fun it =>
            (mkResource it ((ra.relevance_scores.get? pi.1).getD (1 / 2)) cn m.name, it)))).map
              (resolveResourceUrl env cid))) := by
  constructor
  · intro hidx hne
    rw [process_module, hitems]
    simp only []
    rw [if_neg hne, hrank]
    simp only []
    rw [if_pos hidx]
  · intro hne hidx hpos
    rw [process_module, hitems]
    simp only []
    rw [if_neg hne, hrank]
    simp only []
    rw [if_neg hidx]
    have hb := buildLoop_nonneg_eq items ra.relevance_scores cn m.name ra.resource_indices 0 hpos
    rw [hb]
    rfl

/-- Environment for the C4 witness: one item, ranker indices `[0, 5]` with
a single score `1` (so index `5` is out of range and position `1` falls
back to the `0.5` default -- which is never consulted since index `5` is
skipped first). -/
def envC4 : Env where
  pathExists := fun _ => false
  analyzeImage := fun _ => none
  getCourses := none
  courseAnalysis := fun _ => none
  getModules := fun _ => none
  moduleAnalysis := fun _ _ => none
  getItems := fun _ _ => some [⟨some "Notes", none, some "u", none⟩]
  rank := fun _ _ _ _ => some ⟨[0, 5], [1]⟩
  fileUrl := fun _ _ => none

/-- Witness for C4: index `0` builds one resource with score `1`, the
out-of-range index `5` is skipped silently. -/
theorem process_module_build_witness :
    (process_module envC4 "q" 1 "C" ⟨2, "M"⟩).1 =
      .ok [mkResource ⟨some "Notes", none, some "u", none⟩ 1 "C" "M"] := by
  have h := (process_module_build envC4 "q" 1 "C" ⟨2, "M"⟩
    [⟨some "Notes", none, some "u", none⟩] ⟨[0, 5], [1]⟩ rfl rfl).2
    (by decide) (by decide) (by decide)
  rw [h]
  rfl

/-- C10: a negative index in `resource_indices` passes the `idx <
len(items)` bound check; for `-len(items) ≤ idx < 0` the Python indexing
`items[idx]` selects the item at position `len(items) + idx`, so a
resource is built from an item counted from the end; the silent skip
applies exactly to indices at or beyond `len(items)`. -/
theorem negative_index_resource (items : List Item) (scores : List ℚ) (cn mn : String)
    (i : Int) :
    (∀ it, -(items.length : Int) ≤ i → i < 0 →
      items.get? ((items.length : Int) + i).toNat = some it →
      buildLoop items scores cn mn [i] 0 =
        .ok [(mkResource it ((scores.get? 0).getD (1 / 2)) cn mn, it)]) ∧
    ((items.length : Int) ≤ i → buildLoop items scores cn mn [i] 0 = .ok []) := by
  constructor
  · intro it hge hlt hget
    have hguard : i < (items.length : Int) := by omega
    rw [buildLoop, if_pos hguard]
    have hp : pyIndex items i = some it := by
      rw [pyIndex, if_neg (by omega), if_pos hge]
      exact hget
    rw [hp]
    rfl
  · intro hge
    rw [buildLoop, if_neg (by omega)]
    rfl

/-! ## C2: fan-out isolation of per-module failures -/

theorem gatherConcat_ok_nil_middle :
    ∀ (xs ys : List (Except Unit (List Resource))),
      gatherConcat (xs ++ .ok [] :: ys) = gatherConcat (xs ++ ys) := by
  intro xs ys
  induction xs with
  | nil =>
    show gatherConcat (.ok [] :: ys) = gatherConcat ys
    rw [gatherConcat]
    cases hg : gatherConcat ys with
    | error e => rfl
    | ok ls => show Except.ok ([] ++ ls) = Except.ok ls; rw [List.nil_append]
  | cons x xs ih =>
    simp only [List.cons_append]
    cases x with
    | error e => rfl
    | ok l => rw [gatherConcat, ih, ← gatherConcat]

/-- C2: a module whose item fetch fails (or returns nothing) or whose
ranking call fails — including a ranking call that throws, since
`analyze_resource_relevance` catches every exception and returns `None` —
contributes exactly an empty list; the fan-out outcome with that module
present equals the outcome without it, and when the siblings aggregate to
a non-empty list the overall outcome is their sorted resources, not a
failure. -/
theorem fanout_isolation (env : Env) (q : String) (cid : Nat) (cn : String)
    (m : PModule) (modsL modsR : List PModule)
    (hfail : ∀ items, env.getItems cid m.id = some items →
      items = [] ∨ env.rank q items cn m.name = none) :
    (process_module env q cid cn m).1 = .ok [] ∧
    (fanOut env q cid cn (modsL ++ m :: modsR)).1 = (fanOut env q cid cn (modsL ++ modsR)).1 ∧
    (∀ all,
      gatherConcat ((modsL ++ modsR).map (fun x => (process_module env q cid cn x).1)) =
        .ok all →
      all ≠ [] →
      (fanOut env q cid cn (modsL ++ m :: modsR)).1 = .ok (sortResources all)) := by
  have hpm : (process_module env q cid cn m).1 = .ok [] := by
    rw [process_module]
    cases hI : env.getItems cid m.id with
    | none => rfl
    | some items =>
      rcases hfail items hI with hempty | hrank
      · simp [hempty]
      · by_cases hempty : items = []
        · simp [hempty]
        · simp [hempty, hrank]
  have hgather :
      gatherConcat ((modsL ++ m :: modsR).map (fun x => (process_module env q cid cn x).1)) =
        gatherConcat ((modsL ++ modsR).map (fun x => (process_module env q cid cn x).1)) := by
    rw [List.map_append, List.map_cons, hpm, List.map_append]
    exact gatherConcat_ok_nil_middle _ _
  have hfan : (fanOut env q cid cn (modsL ++ m :: modsR)).1 =
      (fanOut env q cid cn (modsL ++ modsR)).1 := by
    show fanOutResult env q cid cn (modsL ++ m :: modsR) =
      fanOutResult env q cid cn (modsL ++ modsR)
    rw [fanOutResult, hgather, ← fanOutResult]
  refine ⟨hpm, hfan, ?_⟩
  intro all hg hne
  rw [hfan]
  show fanOutResult env q cid cn (modsL ++ modsR) = .ok (sortResources all)
  rw [fanOutResult, hg]
  show (if all = [] then POut.fail ErrKind.noRelevantResources
      else POut.ok (sortResources all)) = POut.ok (sortResources all)
  rw [if_neg hne]

/-- Environment for the C2 witness: module `2` has no fetchable items,
modules `1` and `3` rank one resource each (scores `2` and `1`). -/
def envC2 : Env where
  pathExists := fun _ => false
  analyzeImage := fun _ => none
  getCourses := none
  courseAnalysis := fun _ => none
  getModules := fun _ => none
  moduleAnalysis := fun _ _ => none
  getItems := fun _ mid =>
    if mid = 2 then none
    else if mid = 1 then some [⟨some "One", none, some "u1", none⟩]
    else some [⟨some "Three", none, some "u3", none⟩]
  rank := fun _ _ _ mn =>
    if mn = "A" then some ⟨[0], [2]⟩ else some ⟨[0], [1]⟩
  fileUrl := fun _ _ => none

/-- Witness for C2: with the failing middle module, the fan-out still
returns both siblings' resources, sorted. -/
theorem fanout_isolation_witness :
    (fanOut envC2 "q" 9 "Crs" [⟨1, "A"⟩, ⟨2, "B"⟩, ⟨3, "C"⟩]).1 =
      .ok [mkResource ⟨some "One", none, some "u1", none⟩ 2 "Crs" "A",
        mkResource ⟨some "Three", none, some "u3", none⟩ 1 "Crs" "C"] := by
  have h := (fanout_isolation envC2 "q" 9 "Crs" ⟨2, "B"⟩ [⟨1, "A"⟩] [⟨3, "C"⟩]
    (by
      intro items hI
      rw [show envC2.getItems 9 2 = none from rfl] at hI
      exact Option.noConfusion hI)).2.2
    [mkResource ⟨some "One", none, some "u1", none⟩ 2 "Crs" "A",
     mkResource ⟨some "Three", none, some "u3", none⟩ 1 "Crs" "C"]
    (by decide) (by decide)
  exact h.trans (by decide)

/-! ## C1: the course-resolution fallback chain -/

theorem overlapScore_eq_zero {q n : String}
    (h : ((wordSet3 q).filter (fun w => w ∈ wordSet3 n)).length = 0) :
    overlapScore q n = 0 := by
  rw [overlapScore, h]
  simp

theorem chainFold_keep (q cn x : String) :
    ∀ l : List String,
      (∀ n ∈ l, ((wordSet3 q).filter (fun w => w ∈ wordSet3 n)).length = 0) →
      l.foldl (chainStep q cn) (some x, 0) = (some x, 0) := by
  intro l
  induction l with
  | nil => intro _; rfl
  | cons n t ih =>
    intro h
    have hstep : chainStep q cn (some x, 0) n = (some x, 0) := by
      by_cases hc : wordSet3 q ≠ [] ∧ wordSet3 n ≠ []
      · simp [chainStep, hc, overlapScore_eq_zero (h n (List.mem_cons_self n t))]
      · by_cases hs : substrRel cn n
        · simp [chainStep, hc, hs]
        · simp [chainStep, hc, hs]
    rw [List.foldl_cons, hstep, ih (fun y hy => h y (List.mem_cons_of_mem n hy))]

/-- The reachability condition of the substring branch: the `elif` runs only
when the word-overlap score is not computable, i.e. the query or the course
name has no (lowered, deduplicated) word longer than 3 characters. -/
def substrFallbackHit (q cn n : String) : Bool :=
  (decide ¬(wordSet3 q ≠ [] ∧ wordSet3 n ≠ [])) && substrRel cn n

theorem chainFold_find (q cn w : String) :
    ∀ l : List String,
      (∀ n ∈ l, ((wordSet3 q).filter (fun x => x ∈ wordSet3 n)).length = 0) →
      l.filter (substrFallbackHit q cn) = [w] →
      l.foldl (chainStep q cn) (none, 0) = (some w, 0) := by
  intro l
  induction l with
  | nil => intro _ hf; exact absurd hf (by simp)
  | cons n t ih =>
    intro h hf
    by_cases hhit : substrFallbackHit q cn n = true
    · rw [List.filter_cons_of_pos hhit] at hf
      have hn : n = w := by
        have := List.head_eq_of_cons_eq hf
        exact this
      have ht : t.filter (substrFallbackHit q cn) = [] := List.tail_eq_of_cons_eq hf
      have hnc : ¬ (wordSet3 q ≠ [] ∧ wordSet3 n ≠ []) := by
        have h1 := (Bool.and_eq_true _ _).mp hhit
        exact of_decide_eq_true h1.1
      have hs : substrRel cn n = true := ((Bool.and_eq_true _ _).mp hhit).2
      have hstep : chainStep q cn (none, 0) n = (some n, 0) := by
        simp [chainStep, hnc, hs]
      rw [List.foldl_cons, hstep, hn]
      exact chainFold_keep q cn w t (fun y hy => h y (List.mem_cons_of_mem n hy))
    · rw [List.filter_cons_of_neg hhit] at hf
      have hstep : chainStep q cn (none, 0) n = (none, 0) := by
        by_cases hc : wordSet3 q ≠ [] ∧ wordSet3 n ≠ []
        · simp [chainStep, hc, overlapScore_eq_zero (h n (List.mem_cons_self n t))]
        · have hs : substrRel cn n = false := by
            cases hsb : substrRel cn n with
            | false => rfl
            | true =>
              exfalso
              apply hhit
              rw [substrFallbackHit, hsb, decide_eq_true hc]
              rfl
          simp [chainStep, hc, hs]
      rw [List.foldl_cons, hstep]
      exact ih (fun y hy => h y (List.mem_cons_of_mem n hy)) hf

/-- C1 (amended): substring containment is only attempted for course names
whose word-overlap score against the query is not computable (the `elif`),
and any positive word-overlap score — even below `0.2` — takes precedence.
When no course shares a long word with the query and exactly one course
both sits in the `elif` branch and matches the classifier name by
case-insensitive substring containment in either direction, that course —
provided its name is non-empty, a falsy best match failing both
truthiness tests and falling through to the keyword scan — is selected
(the keyword scan is not consulted). -/
theorem course_fallback_unique_substring (q cn : String) (names : List String) (w : String)
    (hnot : cn ∉ names)
    (hzero : ∀ n ∈ names, ((wordSet3 q).filter (fun x => x ∈ wordSet3 n)).length = 0)
    (huniq : names.filter (substrFallbackHit q cn) = [w])
    (hw : w ≠ "") :
    resolveCourse q cn names = some w := by
  rw [resolveCourse, if_neg hnot, chainFold_find q cn w names hzero huniq]
  show (if w = "" then keywordScan q names else some w) = some w
  rw [if_neg hw]

/-- Witness for the amended C1: with a query devoid of long words, the
unique substring-related course is selected. -/
theorem course_fallback_unique_substring_witness :
    resolveCourse "hw" "Math" ["Artistry", "Mathematics"] = some "Mathematics" :=
  course_fallback_unique_substring "hw" "Math" ["Artistry", "Mathematics"] "Mathematics"
    (by decide) (by decide) (by decide) (by decide)

/-- Counterexample to C1 as stated: with query `"calculus homework"`,
classifier name `"Math"` and the single course `"Mathematics"`, no course
reaches word-overlap score `0.2` (the score is `0`) and exactly one course
matches the classifier name by substring containment in either direction,
yet the chain returns the "no relevant course" outcome instead of that
substring winner: the substring branch is unreachable because both word
sets are non-empty, and the keyword scan also misses. -/
theorem course_fallback_substring_unreached_cx :
    overlapScore "calculus homework" "Mathematics" = 0 ∧
    ["Mathematics"].filter (fun n => substrRel "Math" n) = ["Mathematics"] ∧
    resolveCourse "calculus homework" "Math" ["Mathematics"] = none := by
  have hcount : ((wordSet3 "calculus homework").filter
      (fun x => x ∈ wordSet3 "Mathematics")).length = 0 := by decide
  refine ⟨overlapScore_eq_zero hcount, by decide, ?_⟩
  rw [resolveCourse, if_neg (by decide)]
  have hc : wordSet3 "calculus homework" ≠ [] ∧ wordSet3 "Mathematics" ≠ [] := by
    constructor <;> decide
  have hstep : chainStep "calculus homework" "Math" (none, 0) "Mathematics" = (none, 0) := by
    simp [chainStep, hc, overlapScore_eq_zero hcount]
  have hfold : ["Mathematics"].foldl (chainStep "calculus homework" "Math") (none, 0) =
      (none, 0) := by
    rw [List.foldl_cons, hstep]
    rfl
  rw [hfold]
  show keywordScan "calculus homework" ["Mathematics"] = none
  decide

/-- Witness for C10: in a two-item list, index `-1` builds a resource from
the last item, and index `2` is skipped. -/
theorem negative_index_resource_witness :
    buildLoop [⟨some "First", none, none, none⟩, ⟨some "Last", none, none, none⟩]
        [1] "C" "M" [-1] 0 =
      .ok [(mkResource ⟨some "Last", none, none, none⟩ 1 "C" "M",
        ⟨some "Last", none, none, none⟩)] ∧
    buildLoop [⟨some "First", none, none, none⟩, ⟨some "Last", none, none, none⟩]
        [1] "C" "M" [2] 0 = .ok [] := by
  constructor
  · exact (negative_index_resource
      [⟨some "First", none, none, none⟩, ⟨some "Last", none, none, none⟩] [1] "C" "M" (-1)).1
      ⟨some "Last", none, none, none⟩ (by decide) (by decide) (by decide)
  · exact (negative_index_resource
      [⟨some "First", none, none, none⟩, ⟨some "Last", none, none, none⟩] [1] "C" "M" 2).2
      (by decide)

/-! ## C8: input validation makes no collaborator calls -/

/-- C8: called with neither a query nor an image path (`None` or the falsy
empty string), `find_resources` immediately returns the structured input
error, and the collaborator-call trace is empty — no course fetch, no LLM
call, not even a filesystem check; this holds for every environment. -/
theorem input_validation_no_calls (env : Env) :
    findResources env "" none = (.fail .inputError, []) ∧
    findResources env "" (some "") = (.fail .inputError, []) := by
  constructor
  · rw [findResources, if_pos ⟨rfl, Or.inl rfl⟩]
  · rw [findResources, if_pos ⟨rfl, Or.inr rfl⟩]

/-! ## Inversion of the orchestrator on successful runs -/

theorem wrapOut_ok {x : POut} {rs : List Resource} (h : wrapOut x = .ok rs) : x = .ok rs := by
  cases x with
  | crash => exact absurd h (by simp [wrapOut])
  | fail e => exact absurd h (by simp [wrapOut])
  | ok rs0 => exact h

theorem findResources_ok_inv {env : Env} {q : String} {ip : Option String} {rs : List Resource}
    (h : (findResources env q ip).1 = .ok rs) : (helperResources env q ip).1 = .ok rs := by
  rw [findResources.eq_def] at h
  by_cases h0 : q = "" ∧ (ip = none ∨ ip = some "")
  · rw [if_pos h0] at h
    exact absurd h (by simp)
  · rw [if_neg h0] at h
    cases ip with
    | none => exact wrapOut_ok h
    | some p =>
      have h2 : (if p = "" then
            (wrapOut (helperResources env q (some "")).1, (helperResources env q (some "")).2)
          else if env.pathExists p = true then
            (wrapOut (helperResources env q (some p)).1,
              Call.pathExistsCall :: (helperResources env q (some p)).2)
          else if q = "" then (POut.fail ErrKind.imagePathError, [Call.pathExistsCall])
          else (wrapOut (helperResources env q (some p)).1,
            Call.pathExistsCall :: (helperResources env q (some p)).2)).1 = POut.ok rs := h
      by_cases hp : p = ""
      · subst hp
        rw [if_pos rfl] at h2
        exact wrapOut_ok h2
      · rw [if_neg hp] at h2
        by_cases hex : env.pathExists p = true
        · rw [if_pos hex] at h2
          exact wrapOut_ok h2
        · rw [if_neg hex] at h2
          by_cases hq : q = ""
          · rw [if_pos hq] at h2
            exact absurd h2 (by simp)
          · rw [if_neg hq] at h2
            exact wrapOut_ok h2

theorem helperResources_ok_inv {env : Env} {q0 : String} {ip : Option String}
    {rs : List Resource} (h : (helperResources env q0 ip).1 = .ok rs) :
    ∃ (cid : Nat) (cn : String) (mods : List PModule) (all : List Resource),
      gatherConcat (mods.map (fun m =>
        (process_module env (helperQuery env q0 ip).1 cid cn m).1)) = .ok all ∧
      all ≠ [] ∧ rs = sortResources all := by
  rw [helperResources] at h
  cases hco : env.getCourses with
  | none =>
    rw [hco] at h
    exact absurd h (by simp)
  | some courses =>
    rw [hco] at h
    simp only [] at h
    by_cases hce : courses = []
    · rw [if_pos hce] at h
      exact absurd h (by simp)
    · rw [if_neg hce] at h
      cases hca : env.courseAnalysis (helperQuery env q0 ip).1 with
      | none =>
        rw [hca] at h
        exact absurd h (by simp)
      | some ca =>
        rw [hca] at h
        simp only [] at h
        cases hrc : resolveCourse (helperQuery env q0 ip).1 ca.course_name
            (courses.map Prod.fst) with
        | none =>
          rw [hrc] at h
          exact absurd h (by simp)
        | some cn =>
          rw [hrc] at h
          simp only [] at h
          cases hgm : env.getModules ((lookupCourse courses cn).getD 0) with
          | none =>
            rw [hgm] at h
            exact absurd h (by simp)
          | some modules =>
            rw [hgm] at h
            simp only [] at h
            by_cases hme : modules = []
            · rw [if_pos hme] at h
              exact absurd h (by simp)
            · rw [if_neg hme] at h
              cases hma : env.moduleAnalysis (helperQuery env q0 ip).1
                  ((lookupCourse courses cn).getD 0) with
              | none =>
                rw [hma] at h
                exact absurd h (by simp)
              | some ma =>
                rw [hma] at h
                simp only [] at h
                by_cases hsel : modules.filter (fun m =>
                    decide (m.name ∈ ma.module_names) ||
                      moduleKeywordHit (helperQuery env q0 ip).1 m.name) = []
                · rw [if_pos hsel] at h
                  exact absurd h (by simp)
                · rw [if_neg hsel] at h
                  replace h : fanOutResult env (helperQuery env q0 ip).1
                      ((lookupCourse courses cn).getD 0) cn
                      (modules.filter (fun m =>
                        decide (m.name ∈ ma.module_names) ||
                          moduleKeywordHit (helperQuery env q0 ip).1 m.name)) = .ok rs := h
                  rw [fanOutResult] at h
                  cases hg : gatherConcat ((modules.filter (fun m =>
                      decide (m.name ∈ ma.module_names) ||
                        moduleKeywordHit (helperQuery env q0 ip).1 m.name)).map
                      (fun m => (process_module env (helperQuery env q0 ip).1
                        ((lookupCourse courses cn).getD 0) cn m).1)) with
                  | error e =>
                    rw [hg] at h
                    exact absurd h (by simp)
                  | ok all =>
                    rw [hg] at h
                    simp only [] at h
                    by_cases hne : all = []
                    · rw [if_pos hne] at h
                      exact absurd h (by simp)
                    · rw [if_neg hne] at h
                      refine ⟨(lookupCourse courses cn).getD 0, cn, _, all, hg, hne, ?_⟩
                      injection h with h2
                      exact h2.symm

/-! ## C9: the final list is sorted descending, stably -/

theorem filter_orderedInsert_score (s : ℚ) (x : Resource) :
    ∀ l : List Resource,
      (List.orderedInsert scoreGE x l).filter (fun r => decide (r.relevance_score = s)) =
        if x.relevance_score = s then
          x :: l.filter (fun r => decide (r.relevance_score = s))
        else l.filter (fun r => decide (r.relevance_score = s)) := by
  intro l
  induction l with
  | nil =>
    by_cases hx : x.relevance_score = s <;>
      simp [List.orderedInsert, List.filter, hx]
  | cons y ys ih =>
    rw [List.orderedInsert]
    by_cases hr : scoreGE x y
    · rw [if_pos hr]
      by_cases hx : x.relevance_score = s <;> simp [List.filter_cons, hx]
    · rw [if_neg hr]
      have hlt : x.relevance_score < y.relevance_score := not_le.mp hr
      by_cases hx : x.relevance_score = s
      · have hy : ¬ (y.relevance_score = s) := by
          intro hy
          rw [hx, hy] at hlt
          exact lt_irrefl s hlt
        simp [List.filter_cons, hy, hx, ih]
      · by_cases hy : y.relevance_score = s <;>
          simp [List.filter_cons, hx, hy, ih]

theorem filter_sortResources (s : ℚ) :
    ∀ l : List Resource,
      (sortResources l).filter (fun r => decide (r.relevance_score = s)) =
        l.filter (fun r => decide (r.relevance_score = s)) := by
  intro l
  induction l with
  | nil => rfl
  | cons x xs ih =>
    rw [sortResources, List.insertionSort, filter_orderedInsert_score]
    rw [sortResources] at ih
    by_cases hx : x.relevance_score = s <;> simp [List.filter_cons, hx, ih]

/-- C9: every resource list returned by `find_resources` is sorted by
`relevance_score` descending, it is the stable sort of the concatenated
per-module results, and stability holds in the classical form: for every
score value, filtering the output and filtering the pre-sort aggregate by
that score give identical (equally ordered) sublists. -/
theorem pipeline_sort_stable (env : Env) (q : String) (ip : Option String) (rs : List Resource)
    (h : (findResources env q ip).1 = .ok rs) :
    List.Sorted scoreGE rs ∧
    ∃ (cid : Nat) (cn : String) (mods : List PModule) (all : List Resource),
      gatherConcat (mods.map (fun m =>
        (process_module env (helperQuery env q ip).1 cid cn m).1)) = .ok all ∧
      rs = sortResources all ∧
      (∀ s : ℚ, rs.filter (fun r => decide (r.relevance_score = s)) =
        all.filter (fun r => decide (r.relevance_score = s))) := by
  obtain ⟨cid, cn, mods, all, hg, _, hsort⟩ :=
    helperResources_ok_inv (findResources_ok_inv h)
  refine ⟨?_, cid, cn, mods, all, hg, hsort, ?_⟩
  · rw [hsort, sortResources]
    exact List.sorted_insertionSort scoreGE all
  · intro s
    rw [hsort]
    exact filter_sortResources s all

/-- Environment for the C9 witness: two modules whose single items rank
with scores `1` and `2`, so the aggregate must be reordered by the sort. -/
def envC9 : Env where
  pathExists := fun _ => false
  analyzeImage := fun _ => none
  getCourses := some [("Algebra", 7)]
  courseAnalysis := fun _ => some ⟨"Algebra"⟩
  getModules := fun _ => some [⟨1, "Week A"⟩, ⟨2, "Week B"⟩]
  moduleAnalysis := fun _ _ => some ⟨["Week A", "Week B"]⟩
  getItems := fun _ mid =>
    if mid = 1 then some [⟨some "A1", none, some "uA", none⟩]
    else some [⟨some "B1", none, some "uB", none⟩]
  rank := fun _ _ _ mn =>
    if mn = "Week A" then some ⟨[0], [1]⟩ else some ⟨[0], [2]⟩
  fileUrl := fun _ _ => none

/-- Witness for C9 on a concrete run whose fan-out order is the reverse of
the score order. -/
theorem pipeline_sort_stable_witness :
    List.Sorted scoreGE
      [mkResource ⟨some "B1", none, some "uB", none⟩ 2 "Algebra" "Week B",
       mkResource ⟨some "A1", none, some "uA", none⟩ 1 "Algebra" "Week A"] :=
  (pipeline_sort_stable envC9 "algebra" none
    [mkResource ⟨some "B1", none, some "uB", none⟩ 2 "Algebra" "Week B",
     mkResource ⟨some "A1", none, some "uA", none⟩ 1 "Algebra" "Week A"]
    (by decide)).1

/-! ## C3: relevance scores are forwarded from the ranker unclamped -/

theorem buildLoop_score_mem (items : List Item) (scores : List ℚ) (cn mn : String) :
    ∀ (idxs : List Int) (pos : Nat) (prs : List (Resource × Item)),
      buildLoop items scores cn mn idxs pos = .ok prs →
      ∀ p ∈ prs, p.1.relevance_score = 1 / 2 ∨ p.1.relevance_score ∈ scores := by
  intro idxs
  induction idxs with
  | nil =>
    intro pos prs h p hp
    rw [buildLoop] at h
    injection h with h2
    subst h2
    exact absurd hp (List.not_mem_nil p)
  | cons i rest ih =>
    intro pos prs h p hp
    rw [buildLoop] at h
    by_cases hlt : i < (items.length : Int)
    · rw [if_pos hlt] at h
      cases hpy : pyIndex items i with
      | none =>
        rw [hpy] at h
        exact absurd h (by simp)
      | some it =>
        rw [hpy] at h
        cases hb : buildLoop items scores cn mn rest (pos + 1) with
        | error e =>
          rw [hb] at h
          exact absurd h (by simp)
        | ok rs2 =>
          rw [hb] at h
          injection h with h2
          subst h2
          cases hp with
          | head =>
            cases hs : scores.get? pos with
            | none => left; rfl
            | some s =>
              right
              exact List.get?_mem hs
          | tail _ hmem => exact ih (pos + 1) rs2 hb p hmem
    · rw [if_neg hlt] at h
      exact ih (pos + 1) prs h p hp

theorem resolveResourceUrl_score (env : Env) (cid : Nat) (p : Resource × Item) :
    (resolveResourceUrl env cid p).relevance_score = p.1.relevance_score := by
  rw [resolveResourceUrl]
  by_cases ht : p.2.itemType = some "File"
  · rw [if_pos ht]
    cases hc : p.2.content_id with
    | none => rfl
    | some fid =>
      simp only []
      cases hu : env.fileUrl cid fid with
      | none => rfl
      | some u =>
        simp only []
        by_cases hue : u = ""
        · rw [if_pos hue]
        · rw [if_neg hue]
  · rw [if_neg ht]

theorem process_module_score_mem (env : Env) (q : String) (cid : Nat) (cn : String)
    (m : PModule) (l : List Resource) (h : (process_module env q cid cn m).1 = .ok l)
    (r : Resource) (hr : r ∈ l) :
    r.relevance_score = 1 / 2 ∨
    ∃ items ra, env.getItems cid m.id = some items ∧
      env.rank q items cn m.name = some ra ∧ r.relevance_score ∈ ra.relevance_scores := by
  rw [process_module] at h
  cases hI : env.getItems cid m.id with
  | none =>
    rw [hI] at h
    replace h : Except.ok ([] : List Resource) = Except.ok l := h
    injection h with h2
    subst h2
    exact absurd hr (List.not_mem_nil r)
  | some items =>
    rw [hI] at h
    simp only [] at h
    by_cases hie : items = []
    · rw [if_pos hie] at h
      replace h : Except.ok ([] : List Resource) = Except.ok l := h
      injection h with h2
      subst h2
      exact absurd hr (List.not_mem_nil r)
    · rw [if_neg hie] at h
      cases hR : env.rank q items cn m.name with
      | none =>
        rw [hR] at h
        replace h : Except.ok ([] : List Resource) = Except.ok l := h
        injection h with h2
        subst h2
        exact absurd hr (List.not_mem_nil r)
      | some ra =>
        rw [hR] at h
        simp only [] at h
        by_cases hri : ra.resource_indices = []
        · rw [if_pos hri] at h
          replace h : Except.ok ([] : List Resource) = Except.ok l := h
          injection h with h2
          subst h2
          exact absurd hr (List.not_mem_nil r)
        · rw [if_neg hri] at h
          cases hb : buildLoop items ra.relevance_scores cn m.name ra.resource_indices 0 with
          | error e =>
            rw [hb] at h
            replace h : (Except.error e : Except Unit (List Resource)) = Except.ok l := h
            exact absurd h (by simp)
          | ok prs =>
            rw [hb] at h
            replace h : Except.ok (prs.map (resolveResourceUrl env cid)) = Except.ok l := h
            injection h with h2
            subst h2
            rcases List.mem_map.mp hr with ⟨p, hp, hpr⟩
            have hsc : r.relevance_score = p.1.relevance_score := by
              rw [← hpr]
              exact resolveResourceUrl_score env cid p
            rcases buildLoop_score_mem items ra.relevance_scores cn m.name
                ra.resource_indices 0 prs hb p hp with h12 | hmem
            · left; rw [hsc, h12]
            · right
              refine ⟨items, ra, rfl, hR, ?_⟩
              rw [hsc]
              exact hmem

theorem gatherConcat_mem :
    ∀ (xs : List (Except Unit (List Resource))) (all : List Resource),
      gatherConcat xs = .ok all → ∀ r ∈ all, ∃ x ∈ xs, ∃ lx, x = .ok lx ∧ r ∈ lx := by
  intro xs
  induction xs with
  | nil =>
    intro all h r hr
    rw [gatherConcat] at h
    injection h with h2
    subst h2
    exact absurd hr (List.not_mem_nil r)
  | cons x rest ih =>
    intro all h r hr
    cases x with
    | error e =>
      rw [gatherConcat] at h
      exact absurd h (by simp)
    | ok l =>
      rw [gatherConcat] at h
      cases hg : gatherConcat rest with
      | error e =>
        rw [hg] at h
        exact absurd h (by simp)
      | ok ls =>
        rw [hg] at h
        injection h with h2
        subst h2
        rcases List.mem_append.mp hr with hl | hls
        · exact ⟨.ok l, List.mem_cons_self _ _, l, rfl, hl⟩
        · rcases ih ls hg r hls with ⟨x, hx, lx, hxe, hrx⟩
          exact ⟨x, List.mem_cons_of_mem _ hx, lx, hxe, hrx⟩

/-- C3 (amended): every resource returned by `find_resources` carries
either the `0.5` default or literally one of the ranker-returned
`relevance_scores` — the pipeline never clamps or validates them; hence
the `[0,1]` bound holds exactly when every score the ranker returns lies
in `[0,1]`. -/
theorem pipeline_scores_follow_ranker (env : Env)
    (hb : ∀ q2 items cn mn ra, env.rank q2 items cn mn = some ra →
      ∀ s ∈ ra.relevance_scores, 0 ≤ s ∧ s ≤ 1)
    (q : String) (ip : Option String) (rs : List Resource) (r : Resource)
    (h : (findResources env q ip).1 = .ok rs) (hr : r ∈ rs) :
    0 ≤ r.relevance_score ∧ r.relevance_score ≤ 1 := by
  obtain ⟨cid, cn, mods, all, hg, _, hsort⟩ :=
    helperResources_ok_inv (findResources_ok_inv h)
  rw [hsort, sortResources] at hr
  have hall : r ∈ all := (List.mem_insertionSort scoreGE).mp hr
  rcases gatherConcat_mem _ all hg r hall with ⟨x, hx, lx, hxe, hrx⟩
  rcases List.mem_map.mp hx with ⟨mi, _, hxm⟩
  have hpm : (process_module env (helperQuery env q ip).1 cid cn mi).1 = .ok lx :=
    hxm.trans hxe
  rcases process_module_score_mem env (helperQuery env q ip).1 cid cn mi lx hpm r hrx with
    h12 | ⟨items, ra, hI, hR, hmem⟩
  · rw [h12]
    norm_num
  · exact hb (helperQuery env q ip).1 items cn mi.name ra hR r.relevance_score hmem

/-- Environment for the C3 counterexample: the stage-3 ranker returns the
out-of-range relevance score `2`, which no pipeline stage clamps. -/
def envC3 : Env where
  pathExists := fun _ => false
  analyzeImage := fun _ => none
  getCourses := some [("Physics", 3)]
  courseAnalysis := fun _ => some ⟨"Physics"⟩
  getModules := fun _ => some [⟨1, "Waves"⟩]
  moduleAnalysis := fun _ _ => some ⟨["Waves"]⟩
  getItems := fun _ _ => some [⟨some "Slides", none, some "u", none⟩]
  rank := fun _ _ _ _ => some ⟨[0], [2]⟩
  fileUrl := fun _ _ => none

/-- Counterexample to C3 as stated: a complete `find_resources` run whose
returned resource carries relevance score `2`, outside `[0,1]`. -/
theorem pipeline_score_above_one_cx :
    (resourcesOf (findResources envC3 "physics" none).1).map Resource.relevance_score = [2] ∧
    ¬ ((2 : ℚ) ≤ 1) := by
  constructor
  · decide
  · decide

/-- Environment for the C3 witness: identical shape, but the ranker score
is the in-range `1`. -/
def envC3b : Env where
  pathExists := fun _ => false
  analyzeImage := fun _ => none
  getCourses := some [("Chem", 4)]
  courseAnalysis := fun _ => some ⟨"Chem"⟩
  getModules := fun _ => some [⟨1, "Acids"⟩]
  moduleAnalysis := fun _ _ => some ⟨["Acids"]⟩
  getItems := fun _ _ => some [⟨some "Lab", none, some "v", none⟩]
  rank := fun _ _ _ _ => some ⟨[0], [1]⟩
  fileUrl := fun _ _ => none

/-- Witness for the amended C3 on a run whose ranker scores all lie in
`[0,1]`. -/
theorem pipeline_scores_follow_ranker_witness :
    0 ≤ (mkResource ⟨some "Lab", none, some "v", none⟩ 1 "Chem" "Acids").relevance_score ∧
    (mkResource ⟨some "Lab", none, some "v", none⟩ 1 "Chem" "Acids").relevance_score ≤ 1 :=
  pipeline_scores_follow_ranker envC3b
    (by
      intro q2 items cn mn ra hra s hs
      have hra2 : some (⟨[0], [1]⟩ : RankAnalysis) = some ra := hra
      injection hra2 with h2
      subst h2
      have hs1 : s = 1 := by simpa using hs
      subst hs1
      norm_num)
    "chem" none
    [mkResource ⟨some "Lab", none, some "v", none⟩ 1 "Chem" "Acids"]
    (mkResource ⟨some "Lab", none, some "v", none⟩ 1 "Chem" "Acids")
    (by decide) (by decide)

end Canvas
